import Mathlib

/-!
Verification of the plank-progress-pal repository core logic.

This file gives a shallow embedding of the computational core of the
repository (a plank-exercise timer web application) and proves, or refutes,
the specified properties of that core.

Embedded pieces, each translated from the TypeScript source:
  - the time formatters of PlankTimer.tsx, UserStats.tsx, Leaderboard.tsx
    and PlankDetailDialog.tsx;
  - the snapshot retention step of PlankTimer.captureSnapshot;
  - the timer/session state machine of PlankTimer.tsx (handleStart,
    handlePause, handleReset, the per-second tick, mode tabs, snapshot
    capture, and the duration reported by handleComplete);
  - the upload loop and photo-attachment write of PlankTimer.handleComplete;
  - the grouping, ranking and percentile computations of
    UserStats.fetchRank and Leaderboard.loadLeaderboard.

Session records are modelled as pairs of an identity string and an integer
duration.  JavaScript numbers holding whole-second durations are modelled
as integers; JavaScript object key insertion order is modelled by
association lists; the stable Array.prototype.sort is modelled by a stable
insertion sort (stable sorts over a total preorder agree extensionally).
-/

namespace PlankApp

/-! ## Time formatters (one per view file) -/

/-- Model of the JavaScript padStart(2, "0") call on a decimal string. -/
def padStart2 (s : String) : String :=
  if s.length < 2 then String.mk (List.replicate (2 - s.length) '0') ++ s else s

/-- Model of formatTime in PlankTimer.tsx: both the minutes and the seconds
field are padded with padStart(2, "0"). -/
def formatTimePlankTimer (t : Nat) : String :=
  padStart2 (toString (t / 60)) ++ ":" ++ padStart2 (toString (t % 60))

/-- Model of formatTime in UserStats.tsx: minutes unpadded, seconds padded
by prepending "0" when below 10. -/
def formatTimeUserStats (sec : Nat) : String :=
  toString (sec / 60) ++ ":" ++
    (if sec % 60 < 10 then "0" ++ toString (sec % 60) else toString (sec % 60))

/-- Model of formatTime in Leaderboard.tsx (same algorithm as UserStats). -/
def formatTimeLeaderboard (totalSeconds : Nat) : String :=
  toString (totalSeconds / 60) ++ ":" ++
    (if totalSeconds % 60 < 10 then "0" ++ toString (totalSeconds % 60)
     else toString (totalSeconds % 60))

/-- Model of formatTime in PlankDetailDialog.tsx (same algorithm as
UserStats). -/
def formatTimePlankDetail (t : Nat) : String :=
  toString (t / 60) ++ ":" ++
    (if t % 60 < 10 then "0" ++ toString (t % 60) else toString (t % 60))

/-! ## Snapshot retention (PlankTimer.captureSnapshot)

The capture callback runs setSnapshots (cur => [...cur, blob].slice(0, 3)):
append the new blob, then keep the FIRST three elements.  Blobs are
modelled by natural-number identifiers. -/

/-- Model of one successful capture: append the blob and slice(0, 3). -/
def captureStep (cur : List Nat) (blob : Nat) : List Nat :=
  (cur ++ [blob]).take 3

/-- Snapshot list after a sequence of successful captures, starting from
the empty list set at session start. -/
def captureRun (blobs : List Nat) : List Nat :=
  blobs.foldl captureStep []

theorem take_append_take (n : Nat) (u v : List Nat) :
    ((u.take n) ++ v).take n = (u ++ v).take n := by
  induction u generalizing n v with
  | nil => simp
  | cons a u ih =>
    cases n with
    | zero => simp
    | succ n => simp [List.take_succ_cons, ih]

theorem foldl_captureStep (blobs : List Nat) :
    ∀ cur : List Nat, cur.length ≤ 3 →
      blobs.foldl captureStep cur = (cur ++ blobs).take 3 := by
  induction blobs with
  | nil =>
    intro cur h
    simp [List.take_of_length_le h]
  | cons b bs ih =>
    intro cur h
    have hlen : (captureStep cur b).length ≤ 3 := by
      simp [captureStep]
    calc (b :: bs).foldl captureStep cur
        = bs.foldl captureStep (captureStep cur b) := by rfl
      _ = ((captureStep cur b) ++ bs).take 3 := ih _ hlen
      _ = ((cur ++ [b]) ++ bs).take 3 := by
            simp only [captureStep]
            exact take_append_take 3 (cur ++ [b]) bs
      _ = (cur ++ b :: bs).take 3 := by simp

theorem captureRun_eq_take (blobs : List Nat) :
    captureRun blobs = blobs.take 3 := by
  simpa using foldl_captureStep blobs [] (by simp)

/-- C2 counterexample: the PlankTimer formatter pads the minutes field to
two digits, so at input 0 it returns "00:00" while the UserStats formatter
returns "0:00" — the views do not agree and minutes are not unpadded
everywhere. -/
theorem formatTime_views_disagree_at_zero :
    formatTimePlankTimer 0 = "00:00" ∧ formatTimeUserStats 0 = "0:00" ∧
      formatTimePlankTimer 0 ≠ formatTimeUserStats 0 := by
  refine ⟨by decide, by decide, by decide⟩

/-- C2 (amended): the UserStats, Leaderboard and PlankDetailDialog
formatters agree on every input and realise the specified
minutes-unpadded, seconds-zero-padded format (0 to "0:00", 65 to "1:05",
599 to "9:59", 3600 to "60:00"); the PlankTimer formatter instead pads the
minutes field to two digits (0 to "00:00", 65 to "01:05", 599 to "09:59",
3600 to "60:00"). -/
theorem formatTime_agreement_amended (t : Nat) :
    (formatTimeUserStats t = formatTimeLeaderboard t ∧
      formatTimeUserStats t = formatTimePlankDetail t) ∧
    (formatTimeUserStats 0 = "0:00" ∧ formatTimeUserStats 65 = "1:05" ∧
      formatTimeUserStats 599 = "9:59" ∧ formatTimeUserStats 3600 = "60:00") ∧
    (formatTimePlankTimer 0 = "00:00" ∧ formatTimePlankTimer 65 = "01:05" ∧
      formatTimePlankTimer 599 = "09:59" ∧
      formatTimePlankTimer 3600 = "60:00") := by
  refine ⟨⟨rfl, rfl⟩, ⟨by decide, by decide, by decide, by decide⟩,
    ⟨by decide, by decide, by decide, by decide⟩⟩

/-- C1 counterexample: after the four captures 0, 1, 2, 3 the retained
list is the first three captures, not the last three: slice(0, 3) keeps
the oldest entries and discards the newest. -/
theorem snapshots_not_last_three :
    captureRun [0, 1, 2, 3] = [0, 1, 2] ∧ captureRun [0, 1, 2, 3] ≠ [1, 2, 3] := by
  refine ⟨by decide, by decide⟩

/-- C1 (amended): after every sequence of captures the retained snapshot
list is exactly the FIRST min(3, k) captured images in capture order —
once 3 captures have occurred the list is the first 3 and every later
capture is discarded — and the list never holds more than 3 entries. -/
theorem snapshots_keep_first_three (blobs : List Nat) :
    captureRun blobs = blobs.take 3 ∧ (captureRun blobs).length ≤ 3 := by
  refine ⟨captureRun_eq_take blobs, ?_⟩
  rw [captureRun_eq_take blobs]
  simp

/-! ## Timer / session state machine (PlankTimer.tsx)

The React component state is collected in one record.  The two warning
toasts of handleStart are logged in the toasts field; the duration value
that handleComplete reports and persists is logged in the completions
field.  Durations and the numeric inputs are modelled as integers
(JavaScript numbers entered through the number inputs). -/

inductive Mode where
  | stopwatch
  | timer
deriving DecidableEq

structure TimerState where
  mode : Mode
  seconds : Int
  initialSeconds : Int
  inputMin : Int
  inputSec : Int
  isActive : Bool
  isCompleted : Bool
  vowCheat : Bool
  useCamera : Bool
  snapshots : List Nat
  toasts : List String
  completions : List Int
deriving DecidableEq

/-- Initial component state: useState initialisers of PlankTimer. -/
def initState : TimerState :=
  { mode := .stopwatch, seconds := 0, initialSeconds := 0, inputMin := 0,
    inputSec := 0, isActive := false, isCompleted := false, vowCheat := false,
    useCamera := false, snapshots := [], toasts := [], completions := [] }

/-- Model of handleStart: reject without the no-cheat vow, reject a
non-positive countdown target, otherwise clear the snapshot buffer and
activate. -/
def handleStart (s : TimerState) : TimerState :=
  if s.vowCheat = false then
    { s with toasts := s.toasts ++ ["You must swear you wont cheat before you start!"] }
  else
    let total : Int := if s.mode = .timer then s.inputMin * 60 + s.inputSec else 0
    if s.mode = .timer ∧ total ≤ 0 then
      { s with toasts := s.toasts ++ ["Please set a positive timer."] }
    else if s.mode = .timer then
      { s with initialSeconds := total, seconds := total, snapshots := [],
               isActive := true, isCompleted := false }
    else
      { s with seconds := 0, snapshots := [], isActive := true,
               isCompleted := false }

/-- Model of handleReset. -/
def handleReset (s : TimerState) : TimerState :=
  { s with isActive := false, isCompleted := false, seconds := 0,
           inputMin := 0, inputSec := 0, vowCheat := false,
           useCamera := false, snapshots := [] }

/-- Model of handleComplete as far as component state and the reported
duration go: in timer mode the duration is the stored initial target, in
stopwatch mode the current seconds; it is appended to the log of completed
durations. -/
def doComplete (s : TimerState) : TimerState :=
  let duration : Int := if s.mode = .timer then s.initialSeconds else s.seconds
  { s with isActive := false, isCompleted := true, seconds := duration,
           completions := s.completions ++ [duration] }

/-- Model of one firing of the per-second interval: only scheduled while
active; timer mode counts down and completes at one or below, stopwatch
mode counts up. -/
def tickStep (s : TimerState) : TimerState :=
  if s.isActive = false then s
  else if s.mode = .timer then
    if s.seconds ≤ 1 then doComplete s
    else { s with seconds := s.seconds - 1 }
  else { s with seconds := s.seconds + 1 }

/-- Model of one successful snapshot capture: the capture interval exists
only while active with the camera on, and the callback appends the blob
and keeps the first three. -/
def captureEvent (s : TimerState) (blob : Nat) : TimerState :=
  if s.isActive = true ∧ s.useCamera = true then
    { s with snapshots := captureStep s.snapshots blob }
  else s

/-- Model of a click on a mode tab: the tabs are rendered only while the
session is not completed and their handler ignores clicks while active. -/
def modeChange (s : TimerState) (m : Mode) : TimerState :=
  if s.isActive = true then s
  else if s.isCompleted = true then s
  else { s with mode := m }

/-- Events a user or the scheduler can feed into the component. -/
inductive Ev where
  | setVow (b : Bool)
  | toggleCam
  | setMin (n : Int)
  | setSec (n : Int)
  | modeReq (m : Mode)
  | start
  | pause
  | reset
  | tick
  | capture (blob : Nat)
  | save
deriving DecidableEq

/-- Step function of the component: each event is dispatched to the
corresponding handler, guarded by the rendering conditions of the control
that raises it. -/
def step (s : TimerState) : Ev → TimerState
  | .setVow b =>
      if s.isActive = false ∧ s.isCompleted = false then { s with vowCheat := b } else s
  | .toggleCam =>
      if s.isActive = false ∧ s.isCompleted = false then { s with useCamera := !s.useCamera } else s
  | .setMin n =>
      if s.isActive = false ∧ s.isCompleted = false ∧ s.mode = .timer then
        { s with inputMin := n } else s
  | .setSec n =>
      if s.isActive = false ∧ s.isCompleted = false ∧ s.mode = .timer then
        { s with inputSec := n } else s
  | .modeReq m => modeChange s m
  | .start => if s.isActive = false then handleStart s else s
  | .pause => if s.isActive = true then { s with isActive := false } else s
  | .reset => handleReset s
  | .tick => tickStep s
  | .capture blob => captureEvent s blob
  | .save =>
      if s.mode = .stopwatch ∧ s.isActive = false ∧ 0 < s.seconds ∧
          s.isCompleted = false then
        doComplete s
      else s

/-- State reached after a sequence of events. -/
def runTrace (s : TimerState) (evs : List Ev) : TimerState :=
  evs.foldl step s

/-- Blobs delivered by capture events of a trace. -/
def captureBlobs (evs : List Ev) : List Nat :=
  evs.filterMap fun e =>
    match e with
    | .capture b => some b
    | _ => none

theorem step_snapshots_sub (s : TimerState) (e : Ev) (x : Nat)
    (hx : x ∈ (step s e).snapshots) : x ∈ s.snapshots ∨ x ∈ captureBlobs [e] := by
  cases e with
  | setVow b => left; simp only [step] at hx; split_ifs at hx <;> exact hx
  | toggleCam => left; simp only [step] at hx; split_ifs at hx <;> exact hx
  | setMin n => left; simp only [step] at hx; split_ifs at hx <;> exact hx
  | setSec n => left; simp only [step] at hx; split_ifs at hx <;> exact hx
  | modeReq m =>
    left; simp only [step, modeChange] at hx; split_ifs at hx <;> exact hx
  | start =>
    left; simp only [step, handleStart] at hx
    split_ifs at hx <;> simp_all
  | pause => left; simp only [step] at hx; split_ifs at hx <;> exact hx
  | reset => left; simp only [step, handleReset] at hx; simp_all
  | tick =>
    left; simp only [step, tickStep, doComplete] at hx
    split_ifs at hx <;> exact hx
  | capture b =>
    simp only [step, captureEvent, captureStep] at hx
    split_ifs at hx
    · have hmem : x ∈ s.snapshots ++ [b] := List.mem_of_mem_take hx
      rcases List.mem_append.mp hmem with h | h
      · exact Or.inl h
      · right; simp [captureBlobs]; simpa using h
    · exact Or.inl hx
  | save =>
    left; simp only [step, doComplete] at hx; split_ifs at hx <;> exact hx

theorem runTrace_snapshots_sub (evs : List Ev) :
    ∀ (s : TimerState) (x : Nat), x ∈ (runTrace s evs).snapshots →
      x ∈ s.snapshots ∨ x ∈ captureBlobs evs := by
  induction evs with
  | nil => intro s x hx; exact Or.inl hx
  | cons e es ih =>
    intro s x hx
    have hx1 : x ∈ (runTrace (step s e) es).snapshots := hx
    rcases ih (step s e) x hx1 with h | h
    · rcases step_snapshots_sub s e x h with h2 | h2
      · exact Or.inl h2
      · right
        simp only [captureBlobs, List.filterMap_cons] at h2 ⊢
        cases e <;> simp_all [captureBlobs]
    · right
      simp only [captureBlobs, List.filterMap_cons] at h ⊢
      cases e <;> simp_all [captureBlobs]

/-- C3 counterexample: from the initial state the trace vow, start, two
ticks, pause reaches a Paused stopwatch session (inactive, not completed,
positive elapsed time), and there a mode-change request does change the
mode from stopwatch to timer. -/
theorem mode_changes_while_paused :
    ((runTrace initState [.setVow true, .start, .tick, .tick, .pause]).isActive
        = false) ∧
    ((runTrace initState [.setVow true, .start, .tick, .tick, .pause]).isCompleted
        = false) ∧
    (0 < (runTrace initState [.setVow true, .start, .tick, .tick, .pause]).seconds) ∧
    ((runTrace initState [.setVow true, .start, .tick, .tick, .pause]).mode
        = Mode.stopwatch) ∧
    ((step (runTrace initState [.setVow true, .start, .tick, .tick, .pause])
        (.modeReq Mode.timer)).mode = Mode.timer) := by
  refine ⟨by decide, by decide, by decide, by decide, by decide⟩

/-- C3 (amended): a mode-change request leaves the mode unchanged whenever
the timer is Active or Completed; while merely Paused (inactive, not
completed) the tab handler does accept the change, so the mode is
changeable exactly while inactive and not completed, not only while Idle. -/
theorem mode_fixed_when_active_or_completed (s : TimerState) (m : Mode)
    (h : s.isActive = true ∨ s.isCompleted = true) :
    (modeChange s m).mode = s.mode := by
  unfold modeChange
  rcases h with h | h
  · simp [h]
  · split_ifs <;> simp_all

/-- Witness for the amended C3 theorem at a concrete Active state. -/
theorem mode_fixed_when_active_or_completed_witness :
    (modeChange (runTrace initState [.setVow true, .start]) Mode.timer).mode
      = (runTrace initState [.setVow true, .start]).mode :=
  mode_fixed_when_active_or_completed _ Mode.timer (Or.inl (by decide))

/-- C7: handleStart rejects a request without the no-cheat vow with a
warning toast and no other state change; in timer mode it likewise rejects
a non-positive configured target; otherwise the timer becomes Active. -/
theorem handleStart_guards (s : TimerState) :
    (s.vowCheat = false →
      handleStart s =
        { s with toasts := s.toasts ++
            ["You must swear you wont cheat before you start!"] }) ∧
    (s.vowCheat = true → s.mode = Mode.timer →
      s.inputMin * 60 + s.inputSec ≤ 0 →
      handleStart s =
        { s with toasts := s.toasts ++ ["Please set a positive timer."] }) ∧
    (s.vowCheat = true → s.mode = Mode.timer →
      0 < s.inputMin * 60 + s.inputSec → (handleStart s).isActive = true) ∧
    (s.vowCheat = true → s.mode = Mode.stopwatch →
      (handleStart s).isActive = true) := by
  refine ⟨?_, ?_, ?_, ?_⟩
  · intro h; simp [handleStart, h]
  · intro h hm ht; simp [handleStart, h, hm, ht]
  · intro h hm ht
    have : ¬ (s.inputMin * 60 + s.inputSec ≤ 0) := by omega
    simp [handleStart, h, hm, this]
  · intro h hm; simp [handleStart, h, hm]

/-- Witness for C7: the initial state has the vow unset, so a start
request only appends the warning toast. -/
theorem handleStart_guards_witness :
    handleStart initState =
      { initState with toasts := initState.toasts ++
          ["You must swear you wont cheat before you start!"] } :=
  (handleStart_guards initState).1 rfl

theorem countdown_run (k : Nat) :
    ∀ s : TimerState, s.isActive = true → s.mode = Mode.timer →
      s.seconds = (k : Int) + 1 →
      runTrace s (List.replicate (k + 1) .tick) =
        { s with isActive := false, isCompleted := true,
                 seconds := s.initialSeconds,
                 completions := s.completions ++ [s.initialSeconds] } := by
  induction k with
  | zero =>
    intro s ha hm hs
    have h1 : s.seconds ≤ 1 := by omega
    simp [runTrace, step, tickStep, doComplete, ha, hm, h1, hs]
  | succ k ih =>
    intro s ha hm hs
    have h1 : ¬ (s.seconds ≤ 1) := by omega
    have hstep : step s .tick = { s with seconds := s.seconds - 1 } := by
      simp [step, tickStep, ha, hm, h1]
    have hrep : List.replicate (k + 1 + 1) Ev.tick
        = Ev.tick :: List.replicate (k + 1) Ev.tick := rfl
    have hrun : runTrace s (List.replicate (k + 1 + 1) .tick)
        = runTrace { s with seconds := s.seconds - 1 }
            (List.replicate (k + 1) .tick) := by
      rw [hrep]
      show runTrace (step s .tick) (List.replicate (k + 1) .tick) = _
      rw [hstep]
    rw [hrun]
    exact ih { s with seconds := s.seconds - 1 } ha hm (by simp; omega)

/-- C8: a countdown session started with configured target t (strictly
positive, vow set) completes after t ticks, and the duration it reports
and appends to the persistence log is exactly t — the originally
configured target, independent of elapsed real time. -/
theorem countdown_reports_target (s : TimerState)
    (hvow : s.vowCheat = true) (hmode : s.mode = Mode.timer)
    (hpos : 0 < s.inputMin * 60 + s.inputSec) :
    ((runTrace (handleStart s)
        (List.replicate (s.inputMin * 60 + s.inputSec).toNat .tick)).isCompleted
      = true) ∧
    ((runTrace (handleStart s)
        (List.replicate (s.inputMin * 60 + s.inputSec).toNat .tick)).seconds
      = s.inputMin * 60 + s.inputSec) ∧
    ((runTrace (handleStart s)
        (List.replicate (s.inputMin * 60 + s.inputSec).toNat .tick)).completions
      = s.completions ++ [s.inputMin * 60 + s.inputSec]) := by
  have hneg : ¬ (s.inputMin * 60 + s.inputSec ≤ 0) := by omega
  have hstart : handleStart s =
      { s with initialSeconds := s.inputMin * 60 + s.inputSec,
               seconds := s.inputMin * 60 + s.inputSec, snapshots := [],
               isActive := true, isCompleted := false } := by
    simp [handleStart, hvow, hmode, hneg]
  have hk : (s.inputMin * 60 + s.inputSec).toNat
      = ((s.inputMin * 60 + s.inputSec).toNat - 1) + 1 := by omega
  have hrun := countdown_run ((s.inputMin * 60 + s.inputSec).toNat - 1)
      (handleStart s)
      (by rw [hstart]) (by rw [hstart]; exact hmode)
      (by rw [hstart]; simp; omega)
  rw [hk, hrun, hstart]
  refine ⟨rfl, rfl, rfl⟩

/-- Configured two-second countdown state used as the C8 witness input. -/
def twoSecondCountdown : TimerState :=
  { initState with vowCheat := true, mode := Mode.timer, inputSec := 2 }

/-- Witness for C8 at a concrete countdown of two seconds. -/
theorem countdown_reports_target_witness :
    ((runTrace (handleStart twoSecondCountdown)
        (List.replicate ((2 : Int)).toNat .tick)).isCompleted = true) ∧
    ((runTrace (handleStart twoSecondCountdown)
        (List.replicate ((2 : Int)).toNat .tick)).seconds = 2) ∧
    ((runTrace (handleStart twoSecondCountdown)
        (List.replicate ((2 : Int)).toNat .tick)).completions = [] ++ [2]) :=
  countdown_reports_target twoSecondCountdown rfl rfl (by decide)

/-- C10: a successful start request clears the snapshot buffer in the same
state update that activates the session, so every snapshot held at any
later point — in particular the evidence persisted at completion — stems
from a capture event after that start, never from an earlier run. -/
theorem start_clears_evidence (s : TimerState)
    (hvow : s.vowCheat = true)
    (ht : s.mode = Mode.timer → 0 < s.inputMin * 60 + s.inputSec) :
    (handleStart s).snapshots = [] ∧ (handleStart s).isActive = true ∧
    ∀ (evs : List Ev) (x : Nat),
      x ∈ (runTrace (handleStart s) evs).snapshots → x ∈ captureBlobs evs := by
  have hbase : (handleStart s).snapshots = [] ∧ (handleStart s).isActive = true := by
    cases hm : s.mode with
    | stopwatch => simp [handleStart, hvow, hm]
    | timer =>
      have := ht hm
      have hneg : ¬ (s.inputMin * 60 + s.inputSec ≤ 0) := by omega
      simp [handleStart, hvow, hm, hneg]
  refine ⟨hbase.1, hbase.2, ?_⟩
  intro evs x hx
  rcases runTrace_snapshots_sub evs (handleStart s) x hx with h | h
  · rw [hbase.1] at h; cases h
  · exact h

/-- Witness for C10 at a concrete state with the vow set. -/
theorem start_clears_evidence_witness :
    (handleStart { initState with vowCheat := true, useCamera := true }).snapshots
      = [] ∧
    (handleStart { initState with vowCheat := true, useCamera := true }).isActive
      = true ∧
    ∀ (evs : List Ev) (x : Nat),
      x ∈ (runTrace (handleStart
            { initState with vowCheat := true, useCamera := true })
          evs).snapshots →
        x ∈ captureBlobs evs :=
  start_clears_evidence { initState with vowCheat := true, useCamera := true }
    rfl (by decide)

/-! ## Ranking aggregation (UserStats.fetchRank, Leaderboard.loadLeaderboard)

A session record in the 30-day window is a pair of an identity string and
an integer duration.  UserStats accumulates per-identity totals directly
into an object; Leaderboard first groups the raw durations per identity
and then reduces each group.  JavaScript objects iterate their
(non-index) string keys in insertion order, so both groupings are
modelled by association lists extended at the end; the stable
Array.prototype.sort with comparator (a, b) => b.value - a.value is
modelled by a stable insertion sort on the same descending order. -/

/-- Model of totals[u] = (totals[u] || 0) + d applied to one entry. -/
def updEntry (u : String) (d : Int) (e : String × Int) : String × Int :=
  if e.1 = u then (e.1, e.2 + d) else e

/-- Fold step of the UserStats totals accumulation. -/
def addTotal (acc : List (String × Int)) (p : String × Int) :
    List (String × Int) :=
  if p.1 ∈ acc.map Prod.fst then acc.map (updEntry p.1 p.2)
  else acc ++ [(p.1, p.2)]

/-- Model of the UserStats totals object after folding over the records. -/
def groupTotals (acc : List (String × Int)) :
    List (String × Int) → List (String × Int)
  | [] => acc
  | p :: ps => groupTotals (addTotal acc p) ps

/-- Model of stats[u].push(d) applied to one entry. -/
def pushEntry (u : String) (d : Int) (e : String × List Int) :
    String × List Int :=
  if e.1 = u then (e.1, e.2 ++ [d]) else e

/-- Fold step of the Leaderboard per-identity duration grouping. -/
def addDuration (acc : List (String × List Int)) (p : String × Int) :
    List (String × List Int) :=
  if p.1 ∈ acc.map Prod.fst then acc.map (pushEntry p.1 p.2)
  else acc ++ [(p.1, [p.2])]

/-- Model of the Leaderboard stats object after folding over the records. -/
def groupDurations (acc : List (String × List Int)) :
    List (String × Int) → List (String × List Int)
  | [] => acc
  | p :: ps => groupDurations (addDuration acc p) ps

/-- Reduction of one grouped entry to its total time. -/
def sumEntry (e : String × List Int) : String × Int := (e.1, e.2.sum)

/-- Model of Math.max over a group of durations (groups are nonempty by
construction). -/
def bestOf : List Int → Int
  | [] => 0
  | x :: xs => xs.foldl max x

/-- Reduction of one grouped entry to its best single time. -/
def bestEntry (e : String × List Int) : String × Int := (e.1, bestOf e.2)

/-- Descending order on aggregate values used by both leaderboards. -/
def rankRel (a b : String × Int) : Prop := b.2 ≤ a.2

instance : DecidableRel rankRel := fun a b =>
  inferInstanceAs (Decidable (b.2 ≤ a.2))

instance : IsTotal (String × Int) rankRel :=
  ⟨fun a b => le_total b.2 a.2⟩

instance : IsTrans (String × Int) rankRel :=
  ⟨fun _ _ _ hab hbc => le_trans hbc hab⟩

/-- Model of the stable JavaScript sort with comparator
(a, b) => b.value - a.value. -/
def sortByValueDesc (l : List (String × Int)) : List (String × Int) :=
  List.insertionSort rankRel l

/-- Model of .map((e, i) => ({ ...e, rank: i + 1 })), generalised over the
first rank. -/
def attachRanks : Nat → List (String × Int) → List (String × (Int × Nat))
  | _, [] => []
  | i, e :: rest => (e.1, (e.2, i)) :: attachRanks (i + 1) rest

/-- Ranked 30-day total-time leaderboard (Leaderboard.loadLeaderboard,
totalArr). -/
def totalArr (rs : List (String × Int)) : List (String × (Int × Nat)) :=
  attachRanks 1 (sortByValueDesc ((groupDurations [] rs).map sumEntry))

/-- Ranked 30-day best-single-time leaderboard (Leaderboard.loadLeaderboard,
bestArr). -/
def bestArr (rs : List (String × Int)) : List (String × (Int × Nat)) :=
  attachRanks 1 (sortByValueDesc ((groupDurations [] rs).map bestEntry))

/-- Number of distinct identities among the input records. -/
def numIdent (rs : List (String × Int)) : Nat :=
  (rs.map Prod.fst).toFinset.card

/-- Sorted per-identity totals as built inside UserStats.fetchRank. -/
def sortedTotals (rs : List (String × Int)) : List (String × Int) :=
  sortByValueDesc (groupTotals [] rs)

/-- Model of UserStats.fetchRank: locate the identity in the sorted totals;
absent means unranked, present yields rank = index + 1 and percentile
(rank / entry count) * 100. -/
def fetchRank (rs : List (String × Int)) (uid : String) : Option (Nat × ℚ) :=
  match (sortedTotals rs).findIdx? (fun e => e.1 == uid) with
  | some i =>
      some (i + 1, (((i : ℚ) + 1) / (((sortedTotals rs).length : ℚ))) * 100)
  | none => none

/-- Model of the pctText display string, with toFixed(0) rendered as
rounding to the nearest integer (ties up). -/
def pctDisplay (q : ℚ) : String := "Within top " ++ toString (round q) ++ "%"

theorem updEntry_fst (u : String) (d : Int) (e : String × Int) :
    (updEntry u d e).1 = e.1 := by
  unfold updEntry; split <;> rfl

theorem map_updEntry_fst (u : String) (d : Int) (acc : List (String × Int)) :
    (acc.map (updEntry u d)).map Prod.fst = acc.map Prod.fst := by
  rw [List.map_map]
  exact List.map_congr_left fun e _ => updEntry_fst u d e

theorem addTotal_keys (acc : List (String × Int)) (p : String × Int) :
    (addTotal acc p).map Prod.fst =
      if p.1 ∈ acc.map Prod.fst then acc.map Prod.fst
      else acc.map Prod.fst ++ [p.1] := by
  unfold addTotal
  split
  · rw [map_updEntry_fst]
  · simp

theorem map_updEntry_of_not_mem (u : String) (d : Int) :
    ∀ acc : List (String × Int), u ∉ acc.map Prod.fst →
      acc.map (updEntry u d) = acc := by
  intro acc
  induction acc with
  | nil => intro _; rfl
  | cons e rest ih =>
    intro h
    simp only [List.map_cons, List.mem_cons, not_or] at h
    have h1 : updEntry u d e = e := by
      have hne : ¬ e.1 = u := fun he => h.1 he.symm
      unfold updEntry
      simp [hne]
    rw [List.map_cons, h1, ih h.2]

theorem sum_map_updEntry (u : String) (d : Int) :
    ∀ acc : List (String × Int), (acc.map Prod.fst).Nodup →
      u ∈ acc.map Prod.fst →
      ((acc.map (updEntry u d)).map Prod.snd).sum =
        (acc.map Prod.snd).sum + d := by
  intro acc
  induction acc with
  | nil => intro _ h; cases h
  | cons e rest ih =>
    intro hnd hmem
    simp only [List.map_cons, List.nodup_cons] at hnd
    rcases List.mem_cons.mp hmem with he | hrest
    · have hne : e.1 = u := he.symm
      have hnm : u ∉ rest.map Prod.fst := by rw [← hne]; exact hnd.1
      have hhead : updEntry u d e = (e.1, e.2 + d) := by
        unfold updEntry; simp [hne]
      simp only [List.map_cons, map_updEntry_of_not_mem u d rest hnm, hhead,
        List.sum_cons]
      ring
    · have hne : ¬ e.1 = u := by
        intro he
        exact hnd.1 (he ▸ hrest)
      have hhead : updEntry u d e = e := by
        unfold updEntry; simp [hne]
      simp only [List.map_cons, hhead, List.sum_cons]
      rw [ih hnd.2 hrest]
      ring

theorem groupTotals_master (ps : List (String × Int)) :
    ∀ acc : List (String × Int), (acc.map Prod.fst).Nodup →
      ((groupTotals acc ps).map Prod.fst).Nodup ∧
      ((groupTotals acc ps).map Prod.fst).toFinset =
        (acc.map Prod.fst).toFinset ∪ (ps.map Prod.fst).toFinset ∧
      ((groupTotals acc ps).map Prod.snd).sum =
        (acc.map Prod.snd).sum + (ps.map Prod.snd).sum := by
  induction ps with
  | nil =>
    intro acc hnd
    refine ⟨hnd, by simp [groupTotals], by simp [groupTotals]⟩
  | cons p ps ih =>
    intro acc hnd
    have hkeys := addTotal_keys acc p
    have hnd2 : ((addTotal acc p).map Prod.fst).Nodup := by
      rw [hkeys]
      split
      · exact hnd
      · rename_i hnm
        exact List.Nodup.append hnd (List.nodup_singleton p.1)
          (by simpa using hnm)
    have hstep : groupTotals acc (p :: ps) = groupTotals (addTotal acc p) ps := rfl
    obtain ⟨ih1, ih2, ih3⟩ := ih (addTotal acc p) hnd2
    refine ⟨by rw [hstep]; exact ih1, ?_, ?_⟩
    · rw [hstep, ih2, hkeys]
      have hcons : ((p :: ps).map Prod.fst).toFinset
          = insert p.1 ((ps.map Prod.fst).toFinset) := by simp
      split
      · rename_i hmem
        rw [hcons, Finset.union_insert, Finset.insert_eq_self.mpr
          (Finset.mem_union_left _ (List.mem_toFinset.mpr hmem))]
      · have happ : (acc.map Prod.fst ++ [p.1]).toFinset
            = (acc.map Prod.fst).toFinset ∪ {p.1} := by simp
        rw [happ, hcons, Finset.insert_eq, ← Finset.union_assoc]
    · rw [hstep, ih3]
      have hsum : ((addTotal acc p).map Prod.snd).sum =
          (acc.map Prod.snd).sum + p.2 := by
        unfold addTotal
        split
        · rename_i hmem
          exact sum_map_updEntry p.1 p.2 acc hnd hmem
        · simp
      rw [hsum]
      simp only [List.map_cons, List.sum_cons]
      ring

theorem groupTotals_keys_nodup (rs : List (String × Int)) :
    ((groupTotals [] rs).map Prod.fst).Nodup :=
  (groupTotals_master rs [] (by simp)).1

theorem groupTotals_length (rs : List (String × Int)) :
    (groupTotals [] rs).length = numIdent rs := by
  obtain ⟨h1, h2, _⟩ := groupTotals_master rs [] (by simp)
  have hcard : ((groupTotals [] rs).map Prod.fst).toFinset.card
      = ((groupTotals [] rs).map Prod.fst).length :=
    List.toFinset_card_of_nodup h1
  have hlen : ((groupTotals [] rs).map Prod.fst).length
      = (groupTotals [] rs).length := List.length_map _ _
  rw [← hlen, ← hcard, h2]
  simp [numIdent]

theorem groupTotals_mem_keys (rs : List (String × Int)) (u : String) :
    u ∈ (groupTotals [] rs).map Prod.fst ↔ u ∈ rs.map Prod.fst := by
  obtain ⟨_, h2, _⟩ := groupTotals_master rs [] (by simp)
  have := Finset.ext_iff.mp h2 u
  simpa using this

theorem sumEntry_pushEntry (u : String) (d : Int) (e : String × List Int) :
    sumEntry (pushEntry u d e) = updEntry u d (sumEntry e) := by
  unfold sumEntry pushEntry updEntry
  by_cases h : e.1 = u <;> simp [h]

theorem map_sumEntry_fst (acc : List (String × List Int)) :
    (acc.map sumEntry).map Prod.fst = acc.map Prod.fst := by
  rw [List.map_map]
  exact List.map_congr_left fun e _ => rfl

theorem map_sumEntry_addDuration (acc : List (String × List Int))
    (p : String × Int) :
    (addDuration acc p).map sumEntry = addTotal (acc.map sumEntry) p := by
  unfold addDuration addTotal
  rw [map_sumEntry_fst]
  split
  · rw [List.map_map, List.map_map]
    exact List.map_congr_left fun e _ => sumEntry_pushEntry p.1 p.2 e
  · simp [sumEntry]

theorem map_sumEntry_groupDurations (ps : List (String × Int)) :
    ∀ acc : List (String × List Int),
      (groupDurations acc ps).map sumEntry = groupTotals (acc.map sumEntry) ps := by
  induction ps with
  | nil => intro acc; rfl
  | cons p ps ih =>
    intro acc
    show (groupDurations (addDuration acc p) ps).map sumEntry
        = groupTotals (addTotal (acc.map sumEntry) p) ps
    rw [ih (addDuration acc p), map_sumEntry_addDuration]

theorem groupDurations_length (rs : List (String × Int)) :
    (groupDurations [] rs).length = numIdent rs := by
  have h : ((groupDurations [] rs).map sumEntry).length
      = (groupTotals [] rs).length := by
    rw [map_sumEntry_groupDurations rs []]
    rfl
  rw [List.length_map] at h
  rw [h, groupTotals_length]

theorem attachRanks_map_rank (l : List (String × Int)) :
    ∀ i : Nat, (attachRanks i l).map (fun t => t.2.2) = List.range' i l.length := by
  induction l with
  | nil => intro i; rfl
  | cons e rest ih =>
    intro i
    show i :: (attachRanks (i + 1) rest).map (fun t => t.2.2)
        = List.range' i (rest.length + 1)
    rw [ih (i + 1), List.range'_succ]

theorem attachRanks_map_entry (l : List (String × Int)) :
    ∀ i : Nat, (attachRanks i l).map (fun t => (t.1, t.2.1)) = l := by
  induction l with
  | nil => intro i; rfl
  | cons e rest ih =>
    intro i
    show (e.1, e.2) :: (attachRanks (i + 1) rest).map (fun t => (t.1, t.2.1))
        = e :: rest
    rw [ih (i + 1)]

theorem ranked_list_spec (l : List (String × Int)) :
    (attachRanks 1 (sortByValueDesc l)).map (fun t => t.2.2)
        = List.range' 1 l.length ∧
    (attachRanks 1 (sortByValueDesc l)).Pairwise (fun a b => b.2.1 ≤ a.2.1) := by
  constructor
  · rw [attachRanks_map_rank (sortByValueDesc l) 1]
    have : (sortByValueDesc l).length = l.length :=
      (List.perm_insertionSort rankRel l).length_eq
    rw [this]
  · have hs : List.Pairwise rankRel (sortByValueDesc l) :=
      List.sorted_insertionSort rankRel l
    rw [← attachRanks_map_entry (sortByValueDesc l) 1] at hs
    exact List.pairwise_map.mp hs

/-- C4: for every input record collection, both leaderboard aggregations
produce output sorted descending by aggregate value whose assigned ranks
read 1, 2, ..., N in output order, where N is the number of distinct
identities — a permutation of 1..N with no skips, ties included. -/
theorem leaderboard_ranks_spec (rs : List (String × Int)) :
    ((totalArr rs).map (fun t => t.2.2) = List.range' 1 (numIdent rs) ∧
      (totalArr rs).Pairwise (fun a b => b.2.1 ≤ a.2.1)) ∧
    ((bestArr rs).map (fun t => t.2.2) = List.range' 1 (numIdent rs) ∧
      (bestArr rs).Pairwise (fun a b => b.2.1 ≤ a.2.1)) := by
  have hlen1 : ((groupDurations [] rs).map sumEntry).length = numIdent rs := by
    rw [List.length_map, groupDurations_length]
  have hlen2 : ((groupDurations [] rs).map bestEntry).length = numIdent rs := by
    rw [List.length_map, groupDurations_length]
  have h1 := ranked_list_spec ((groupDurations [] rs).map sumEntry)
  have h2 := ranked_list_spec ((groupDurations [] rs).map bestEntry)
  rw [hlen1] at h1
  rw [hlen2] at h2
  exact ⟨h1, h2⟩

/-- C6: the sum over all identities of the aggregate-by-total values —
in both the UserStats totals object and the Leaderboard totalArr source —
equals the sum of all input record durations. -/
theorem total_aggregate_sum (rs : List (String × Int)) :
    ((groupTotals [] rs).map Prod.snd).sum = (rs.map Prod.snd).sum ∧
    (((groupDurations [] rs).map sumEntry).map Prod.snd).sum
      = (rs.map Prod.snd).sum := by
  have h := (groupTotals_master rs [] (by simp)).2.2
  constructor
  · simpa using h
  · rw [map_sumEntry_groupDurations rs []]
    simpa using h

theorem sortedTotals_length (rs : List (String × Int)) :
    (sortedTotals rs).length = numIdent rs := by
  unfold sortedTotals sortByValueDesc
  rw [(List.perm_insertionSort rankRel (groupTotals [] rs)).length_eq,
    groupTotals_length]

/-- C5: an identity with no record in the window is unranked (no rank, no
percentile); a present identity receives percentile
(rank / distinct-identity count) * 100, rounded to zero decimal places
for the display string; the top-ranked identity gets exactly 100 / N. -/
theorem fetchRank_spec (rs : List (String × Int)) (uid : String) :
    (uid ∉ rs.map Prod.fst → fetchRank rs uid = none) ∧
    (∀ (r : Nat) (p : ℚ), fetchRank rs uid = some (r, p) →
      p = (r : ℚ) / ((numIdent rs : ℚ)) * 100 ∧
      pctDisplay p =
        "Within top " ++
          toString (round ((r : ℚ) / ((numIdent rs : ℚ)) * 100)) ++ "%") ∧
    ((sortedTotals rs).head?.map Prod.fst = some uid →
      fetchRank rs uid = some (1, 100 / ((numIdent rs : ℚ)))) := by
  refine ⟨?_, ?_, ?_⟩
  · intro h
    have hmem : uid ∉ (groupTotals [] rs).map Prod.fst := fun hc =>
      h ((groupTotals_mem_keys rs uid).mp hc)
    have hmem2 : uid ∉ (sortedTotals rs).map Prod.fst := by
      intro hc
      apply hmem
      have hperm : ((sortedTotals rs).map Prod.fst).Perm
          ((groupTotals [] rs).map Prod.fst) :=
        (List.perm_insertionSort rankRel (groupTotals [] rs)).map Prod.fst
      exact hperm.mem_iff.mp hc
    have hnone : (sortedTotals rs).findIdx? (fun e => e.1 == uid) = none := by
      rw [List.findIdx?_eq_none_iff]
      intro x hx
      have hxe : ¬ x.1 = uid := fun heq =>
        hmem2 (heq ▸ List.mem_map_of_mem Prod.fst hx)
      simp [hxe]
    unfold fetchRank
    rw [hnone]
  · intro r p hrp
    unfold fetchRank at hrp
    cases hidx : (sortedTotals rs).findIdx? (fun e => e.1 == uid) with
    | none => rw [hidx] at hrp; cases hrp
    | some i =>
      rw [hidx] at hrp
      have h1 := Option.some.inj hrp
      have hr : i + 1 = r := congrArg Prod.fst h1
      have hp : (((i : ℚ) + 1) / (((sortedTotals rs).length : ℚ))) * 100 = p :=
        congrArg Prod.snd h1
      have hpeq : p = (r : ℚ) / ((numIdent rs : ℚ)) * 100 := by
        rw [← hp, ← hr, sortedTotals_length]
        push_cast
        ring
      refine ⟨hpeq, ?_⟩
      rw [hpeq]
      rfl
  · intro hhead
    cases hs : sortedTotals rs with
    | nil => rw [hs] at hhead; simp at hhead
    | cons e rest =>
      rw [hs] at hhead
      have he : e.1 = uid := by simpa using hhead
      have hfind : (sortedTotals rs).findIdx? (fun x => x.1 == uid) = some 0 := by
        rw [hs, List.findIdx?_cons]
        simp [he]
      have hval : (((0 : ℕ) : ℚ) + 1) / (((sortedTotals rs).length : ℚ)) * 100
          = 100 / ((numIdent rs : ℚ)) := by
        rw [sortedTotals_length]
        push_cast
        ring
      unfold fetchRank
      rw [hfind]
      show some ((0 : ℕ) + 1,
          (((0 : ℕ) : ℚ) + 1) / (((sortedTotals rs).length : ℚ)) * 100)
        = some (1, 100 / ((numIdent rs : ℚ)))
      rw [hval]

/-- Witness for C5 at a concrete collection where the target identity is
absent. -/
theorem fetchRank_spec_witness :
    fetchRank [("a", 5), ("b", 3)] "c" = none :=
  (fetchRank_spec [("a", 5), ("b", 3)] "c").1 (by decide)

/-! ## Evidence upload loop (PlankTimer.handleComplete, steps 3 and 4)

After the session record is inserted, handleComplete iterates over the
retained snapshots: each upload failure logs one error toast and the loop
continues; each success pushes the storage path.  After the loop, the
photos column of the record is written back in one update if and only if
at least one path was collected.  The outcome of the storage call at each
index is abstracted by a Boolean function. -/

/-- Storage object name of the snapshot at the given index. -/
def fileName (uid pid : String) (i : Nat) : String :=
  uid ++ "_" ++ pid ++ "_" ++ toString i ++ ".png"

/-- Model of the sequential upload loop from index i: returns the
collected storage paths in order and the number of failure toasts. -/
def uploadGo (uid pid : String) (ok : Nat → Bool) :
    Nat → List Nat → List String × Nat
  | _, [] => ([], 0)
  | i, _ :: rest =>
      if ok i then
        (fileName uid pid i :: (uploadGo uid pid ok (i + 1) rest).1,
          (uploadGo uid pid ok (i + 1) rest).2)
      else
        ((uploadGo uid pid ok (i + 1) rest).1,
          (uploadGo uid pid ok (i + 1) rest).2 + 1)

structure PlankRecord where
  duration : Int
  photos : List String
deriving DecidableEq

structure CompleteOutcome where
  record : PlankRecord
  failureToasts : Nat
  updatedPhotos : Bool
deriving DecidableEq

/-- Model of handleComplete persistence after a successful auth check and
insert: the record is created with the finalized duration, every snapshot
upload is attempted, and the photos list is written back in one update
exactly when at least one upload succeeded. -/
def persistSession (uid pid : String) (duration : Int) (snaps : List Nat)
    (ok : Nat → Bool) : CompleteOutcome :=
  { record := { duration := duration,
                photos := if (uploadGo uid pid ok 0 snaps).1.length = 0 then []
                          else (uploadGo uid pid ok 0 snaps).1 },
    failureToasts := (uploadGo uid pid ok 0 snaps).2,
    updatedPhotos := decide ((uploadGo uid pid ok 0 snaps).1.length ≠ 0) }

theorem uploadGo_count (uid pid : String) (ok : Nat → Bool)
    (snaps : List Nat) :
    ∀ i : Nat, (uploadGo uid pid ok i snaps).1.length
        + (uploadGo uid pid ok i snaps).2 = snaps.length := by
  induction snaps with
  | nil => intro i; rfl
  | cons s rest ih =>
    intro i
    have hrest := ih (i + 1)
    by_cases h : ok i <;> simp [uploadGo, h] <;> omega

/-- C9: every snapshot upload is attempted (paths collected plus failure
toasts account for every snapshot, so one failure aborts nothing), the
evidence list is written back in one update exactly when at least one
upload succeeded, the record keeps its duration regardless; in particular
with 3 snapshots and 2 failures the persisted record carries exactly 1
evidence path and exactly 2 failure toasts were produced. -/
theorem upload_partial_failure_spec (uid pid : String) (d : Int)
    (snaps : List Nat) (ok : Nat → Bool) :
    ((persistSession uid pid d snaps ok).record.photos.length
        + (persistSession uid pid d snaps ok).failureToasts = snaps.length) ∧
    ((persistSession uid pid d snaps ok).updatedPhotos = true ↔
      (persistSession uid pid d snaps ok).record.photos ≠ []) ∧
    ((persistSession uid pid d snaps ok).record.duration = d) ∧
    (snaps.length = 3 → (persistSession uid pid d snaps ok).failureToasts = 2 →
      (persistSession uid pid d snaps ok).record.photos.length = 1 ∧
      (persistSession uid pid d snaps ok).updatedPhotos = true) := by
  have hcount := uploadGo_count uid pid ok snaps 0
  have hphotos : (persistSession uid pid d snaps ok).record.photos.length
      = (uploadGo uid pid ok 0 snaps).1.length := by
    unfold persistSession
    split
    · simp_all
    · rfl
  have hfail : (persistSession uid pid d snaps ok).failureToasts
      = (uploadGo uid pid ok 0 snaps).2 := rfl
  have hupd : (persistSession uid pid d snaps ok).updatedPhotos = true ↔
      (uploadGo uid pid ok 0 snaps).1.length ≠ 0 := by
    unfold persistSession
    simp
  refine ⟨by rw [hphotos, hfail]; exact hcount, ?_, rfl, ?_⟩
  · rw [hupd]
    constructor
    · intro h
      intro hnil
      apply h
      rw [← hphotos]
      simp [hnil]
    · intro h
      rw [← hphotos]
      intro hzero
      exact h (List.length_eq_zero.mp hzero)
  · intro h3 h2
    have h1 : (persistSession uid pid d snaps ok).record.photos.length = 1 := by
      rw [hphotos]
      rw [hphotos, hfail] at *
      omega
    refine ⟨h1, ?_⟩
    rw [hupd, ← hphotos, h1]
    omega

/-- Witness for C9: three snapshots of which only the middle upload
succeeds yield one persisted evidence path and the photos update. -/
theorem upload_partial_failure_spec_witness :
    ((persistSession "u" "p" 30 [7, 8, 9] (fun i => i == 1)).record.photos.length
      = 1) ∧
    ((persistSession "u" "p" 30 [7, 8, 9] (fun i => i == 1)).updatedPhotos
      = true) :=
  (upload_partial_failure_spec "u" "p" 30 [7, 8, 9] (fun i => i == 1)).2.2.2
    (by decide) (by decide)

end PlankApp
